import Mathlib

/-!
Verification of the numeric fixed-point decimal engine.

This file is a shallow embedding of the core of the `numeric` Go package:
the packed flagged limb (`fVal`), the six-limb fixed decimal (`f24`), the
digit buffer and text parser (`digits`), and the arithmetic engine
(`add`, `sub`, `mul`, `div`, `divRem`, `round`, `negate`, `abs`, `quanta`).

Conventions of the embedding:
* Machine integers are modelled as `Nat`/`Int` with explicit reductions.
  `fVal.setVal` keeps the Go behaviour `(uint32 conversion, then mask to
  31 bits)`, which collapses to one reduction modulo `2^31`.
* Go code that can panic (array index out of range in `round`,
  accumulator index `-1` in `mul`, `bits.Div64` overflow in the division
  estimate) is modelled with `Option`: `none` is a panic.
* The `int64` scratch unit of the division engine (`divUnit`) is an
  `Int` with explicit two's-complement wrapping where the Go code can
  overflow (`divArray.mul`).
* The exponent accumulator of the text parser is modelled as an
  unbounded `Int`; Go wraps it at `int64`, which only matters for
  exponents with at least nineteen digits, where the Go code then
  slices with a negative index and panics.  No claim concerns such
  inputs.
-/

namespace NumericDef

/-- Base of one limb, `1e9` (Go constant `radix`). -/
def radix : Nat := 1000000000

/-- Largest value of a single limb, `1e9 - 1` (Go constant `maxDigit`). -/
def maxDigit : Nat := radix - 1

/-- Half of the radix, used as the normalization pivot (Go `radixHalfI`). -/
def radixHalf : Nat := 500000000

/-- Number of base-10 digits per limb (Go `radixDigits`). -/
def radixDigits : Nat := 9

/-- Total number of stored decimal digits (Go `precision`). -/
def precision : Nat := 54

/-- Maximum number of whole digits (Go `maxWholeDigits`). -/
def maxWholeDigits : Nat := 18

/-- Maximum number of decimal places (Go `maxDecimalPlaces`). -/
def maxDecimalPlaces : Nat := 36

/-- Multiplier for the leading digit of a limb (Go `decMul`). -/
def decMul : Nat := 100000000

/-- Largest representable integer magnitude bound (Go `maxValue`). -/
def maxValue : Nat := 10 ^ 18 - 1

/-- Index of the least significant limb (Go `lowIndex`). -/
def lowIndex : Nat := 5

/-- Index of the first fractional limb (Go `decIndex`). -/
def decIndex : Nat := 2

/-- The powers-of-ten table (Go `powers`). -/
def powers : List Nat :=
  [1, 10, 100, 1000, 10000, 100000, 1000000, 10000000, 100000000, 1000000000]

/-- A packed flagged limb: Go's `fVal` is a `uint32` whose high bit is a
flag and whose low 31 bits are the magnitude.  The embedding keeps the two
components separate; `val` is always the masked 31-bit magnitude. -/
structure fVal where
  val : Nat
  flag : Bool
deriving DecidableEq

/-- Go `fVal.setVal`: store the low 31 bits of the `uint32` argument,
preserving the flag bit.  All Go call sites convert with `uint32(...)`
first; `(v % 2^32) % 2^31 = v % 2^31`, so one reduction suffices. -/
def fVal.setVal (f : fVal) (v : Nat) : fVal :=
  ⟨v % 2 ^ 31, f.flag⟩

/-- Go `fVal.setFlag`. -/
def fVal.setFlag (f : fVal) (b : Bool) : fVal :=
  ⟨f.val, b⟩

/-- The zero limb. -/
def fVal.zero : fVal := ⟨0, false⟩

/-- Go `f24`: six packed limbs.  Limb 0 and 1 are the integer part,
limbs 2..5 the fractional part; the flags of limbs 0..3 are the
negative, NaN, overflow and underflow flags. -/
structure f24 where
  v0 : fVal
  v1 : fVal
  v2 : fVal
  v3 : fVal
  v4 : fVal
  v5 : fVal
deriving DecidableEq

/-- The all-zero value (Go zero value of `f24`). -/
def f24.zero : f24 :=
  ⟨fVal.zero, fVal.zero, fVal.zero, fVal.zero, fVal.zero, fVal.zero⟩

/-- Indexed read of a limb, Go `f[i]` for `i < 6`. -/
def f24.get (f : f24) : Fin 6 → fVal
  | 0 => f.v0
  | 1 => f.v1
  | 2 => f.v2
  | 3 => f.v3
  | 4 => f.v4
  | 5 => f.v5

/-- Indexed write of a limb, Go `f[i] = x` for `i < 6`. -/
def f24.set (f : f24) : Fin 6 → fVal → f24
  | 0, x => { f with v0 := x }
  | 1, x => { f with v1 := x }
  | 2, x => { f with v2 := x }
  | 3, x => { f with v3 := x }
  | 4, x => { f with v4 := x }
  | 5, x => { f with v5 := x }

/-- Go `f24.isNeg`: the flag of limb 0. -/
def f24.isNeg (f : f24) : Bool := f.v0.flag

/-- Go `f24.setNeg`. -/
def f24.setNeg (f : f24) (b : Bool) : f24 := { f with v0 := f.v0.setFlag b }

/-- Go `f24.isNaN`: the flag of limb 1. -/
def f24.isNaN (f : f24) : Bool := f.v1.flag

/-- Go `f24.setNaN`. -/
def f24.setNaN (f : f24) (b : Bool) : f24 := { f with v1 := f.v1.setFlag b }

/-- Go `f24.isOverflow`: the flag of limb 2. -/
def f24.isOverflow (f : f24) : Bool := f.v2.flag

/-- Go `f24.setOverflow`. -/
def f24.setOverflow (f : f24) (b : Bool) : f24 := { f with v2 := f.v2.setFlag b }

/-- Go `f24.isUnderflow`: the flag of limb 3. -/
def f24.isUnderflow (f : f24) : Bool := f.v3.flag

/-- Go `f24.setUnderflow`. -/
def f24.setUnderflow (f : f24) (b : Bool) : f24 := { f with v3 := f.v3.setFlag b }

/-- Go `f24.isZero`: every limb magnitude is zero (flags are ignored). -/
def f24.isZero (f : f24) : Bool :=
  f.v0.val == 0 && f.v1.val == 0 && f.v2.val == 0 &&
  f.v3.val == 0 && f.v4.val == 0 && f.v5.val == 0

/-- Go `maxF24`: all six limbs at the maximum magnitude, no flags. -/
def maxF24 : f24 :=
  ⟨⟨maxDigit, false⟩, ⟨maxDigit, false⟩, ⟨maxDigit, false⟩,
   ⟨maxDigit, false⟩, ⟨maxDigit, false⟩, ⟨maxDigit, false⟩⟩

/-- Go free function `overflow(isNeg)`: the canonical overflow value. -/
def overflowF24 (isNeg : Bool) : f24 :=
  ((maxF24.setNeg isNeg).setOverflow true)

/-- Go `arithmetic.overflow(z)`: clamp `z`'s limbs to the maximum and set
the overflow flag, preserving the other flags of `z`. -/
def arithOverflow (z : f24) : f24 :=
  let z := { z with v0 := z.v0.setVal maxDigit, v1 := z.v1.setVal maxDigit,
                    v2 := z.v2.setVal maxDigit, v3 := z.v3.setVal maxDigit,
                    v4 := z.v4.setVal maxDigit, v5 := z.v5.setVal maxDigit }
  z.setOverflow true

/-- Go `arithmetic.unsignedCompare`: lexicographic comparison of the limb
magnitudes, limb 0 most significant; `1` if `|x| > |y|`, `-1` if
`|x| < |y|`, `0` if equal. -/
def unsignedCompare (x y : f24) : Int :=
  if x.v0.val > y.v0.val then 1 else if x.v0.val < y.v0.val then -1 else
  if x.v1.val > y.v1.val then 1 else if x.v1.val < y.v1.val then -1 else
  if x.v2.val > y.v2.val then 1 else if x.v2.val < y.v2.val then -1 else
  if x.v3.val > y.v3.val then 1 else if x.v3.val < y.v3.val then -1 else
  if x.v4.val > y.v4.val then 1 else if x.v4.val < y.v4.val then -1 else
  if x.v5.val > y.v5.val then 1 else if x.v5.val < y.v5.val then -1 else 0

/-- One step of the unrolled unsigned addition: produce the stored limb
and the outgoing carry for `xi + yi + carry`. -/
def addStep (xi yi carry : Nat) : Nat × Nat :=
  let sum := xi + yi + carry
  if sum ≥ radix then (sum - radix, 1) else (sum, 0)

/-- Go `arithmetic.unsignedAdd`: `z = |x| + |y|`, carry propagating from
limb 5 up to limb 0; a final carry replaces `z` with the canonical
overflow value of `z`'s sign (Go `*z = overflow(z.isNeg())`). -/
def unsignedAdd (z x y : f24) : f24 :=
  let a5 := addStep x.v5.val y.v5.val 0
  let a4 := addStep x.v4.val y.v4.val a5.2
  let a3 := addStep x.v3.val y.v3.val a4.2
  let a2 := addStep x.v2.val y.v2.val a3.2
  let a1 := addStep x.v1.val y.v1.val a2.2
  let a0 := addStep x.v0.val y.v0.val a1.2
  let z := { z with v5 := z.v5.setVal a5.1, v4 := z.v4.setVal a4.1,
                    v3 := z.v3.setVal a3.1, v2 := z.v2.setVal a2.1,
                    v1 := z.v1.setVal a1.1, v0 := z.v0.setVal a0.1 }
  if a0.2 > 0 then overflowF24 z.isNeg else z

/-- One step of the unrolled unsigned subtraction: Go adds the borrow to
the subtrahend limb and lends a radix when needed. -/
def subStep (ai bi borrow : Nat) : Nat × Nat :=
  let bi := bi + borrow
  if ai < bi then (ai + radix - bi, 1) else (ai - bi, 0)

/-- Go `arithmetic.unsignedSub`: `z = |a| - |b|`, assuming `|a| ≥ |b|`;
borrow propagates from limb 5 up, and at limb 0 a lend is taken without
recording a borrow. -/
def unsignedSub (z a b : f24) : f24 :=
  let s5 := subStep a.v5.val b.v5.val 0
  let s4 := subStep a.v4.val b.v4.val s5.2
  let s3 := subStep a.v3.val b.v3.val s4.2
  let s2 := subStep a.v2.val b.v2.val s3.2
  let s1 := subStep a.v1.val b.v1.val s2.2
  let s0 := subStep a.v0.val b.v0.val s1.2
  { z with v5 := z.v5.setVal s5.1, v4 := z.v4.setVal s4.1,
           v3 := z.v3.setVal s3.1, v2 := z.v2.setVal s2.1,
           v1 := z.v1.setVal s1.1, v0 := z.v0.setVal s0.1 }

/-- Go `arithmetic.add` on a zero-initialized output `z`. -/
def add (x y : f24) : f24 :=
  if x.isNaN || y.isNaN then f24.zero.setNaN true
  else
    let z := if x.isUnderflow || y.isUnderflow then f24.zero.setUnderflow true
             else f24.zero
    if x.isNeg == y.isNeg then
      let z := z.setNeg x.isNeg
      if x.isOverflow || y.isOverflow then arithOverflow z
      else unsignedAdd z x y
    else
      if x.isOverflow || y.isOverflow then
        arithOverflow (z.setNeg (x.isNeg || y.isOverflow))
      else
        let c := unsignedCompare x y
        if c == 0 then z
        else if c == 1 then (unsignedSub z x y).setNeg x.isNeg
        else (unsignedSub z y x).setNeg y.isNeg

/-- Go `arithmetic.negate` on a zero-initialized output. -/
def negate (x : f24) : f24 :=
  if x.isNaN then f24.zero.setNaN true
  else x.setNeg (!x.isNeg && !(x.isZero && !x.isUnderflow))

/-- Go `arithmetic.abs` on a zero-initialized output. -/
def absF24 (x : f24) : f24 :=
  if x.isNaN then f24.zero.setNaN true
  else x.setNeg false

/-- Go `arithmetic.sub`: `x + (-y)`. -/
def sub (x y : f24) : f24 :=
  add x (negate y)

/-- Go `shouldBeNeg`: the final-sign rule of `div` and `round`.  NaN is
never negative; an exact zero is never negative; an underflow-flagged
zero keeps the requested sign. -/
def shouldBeNeg (x : f24) (isNeg : Bool) : Bool :=
  if x.isNaN then false
  else if x.isZero then (if x.isUnderflow then isNeg else false)
  else isNeg

/-- Go `mulOffset` table: the base-`1e9` exponent of each limb. -/
def mulOffset : Fin 6 → Int
  | 0 => 1
  | 1 => 0
  | 2 => -1
  | 3 => -2
  | 4 => -3
  | 5 => -4

/-- The 36 index pairs of the schoolbook multiplication, in the Go loop
order: outer `i` from 5 down to 0, inner `j` from 5 down to 0. -/
def mulPairs : List (Fin 6 × Fin 6) :=
  [5, 4, 3, 2, 1, 0].flatMap fun i => [5, 4, 3, 2, 1, 0].map fun j => (i, j)

/-- One partial product added into the 12-slot accumulator (the body of
Go `mul`'s inner loop): slot `pos` takes `v % radix`, slot `pos-1` takes
the carry and `v / radix`, renormalizing each slot once; a carry out of
slot `pos-1` bumps slot `pos-2`.  `none` models the Go panic when an
index is out of range (`pos-2 = -1`). -/
def mulAccStep (acc : List Nat) (pos : Nat) (v : Nat) : Option (List Nat) :=
  if pos = 0 ∨ 11 < pos then none
  else
    let acc := acc.set pos (acc.getD pos 0 + v % radix)
    let acc :=
      if acc.getD pos 0 ≥ radix then
        (acc.set pos (acc.getD pos 0 - radix)).set (pos - 1) (acc.getD (pos - 1) 0 + 1)
      else acc
    let acc := acc.set (pos - 1) (acc.getD (pos - 1) 0 + v / radix)
    if acc.getD (pos - 1) 0 ≥ radix then
      if pos < 2 then none
      else
        some ((acc.set (pos - 1) (acc.getD (pos - 1) 0 - radix)).set
          (pos - 2) (acc.getD (pos - 2) 0 + 1))
    else some acc

/-- The full 6×6 partial-product accumulation of Go `mul` (pairs with a
zero factor are skipped, as in the Go `continue`s). -/
def mulAcc (x y : f24) : Option (List Nat) :=
  mulPairs.foldlM
    (fun acc ij =>
      let xi := (x.get ij.1).val
      let yj := (y.get ij.2).val
      if xi == 0 || yj == 0 then some acc
      else mulAccStep acc (3 - mulOffset ij.1 - mulOffset ij.2).toNat (xi * yj))
    (List.replicate 12 0)

/-- Go `arithmetic.mul` on a zero-initialized output.  `none` is the
(unreached in practice) accumulator-index panic. -/
def mul (x y : f24) : Option f24 :=
  if x.isNaN || y.isNaN then some (f24.zero.setNaN true)
  else
    let isNeg := x.isNeg != y.isNeg
    let z := f24.zero.setNeg isNeg
    let z := if x.isUnderflow || y.isUnderflow then z.setUnderflow true else z
    if !y.isZero && (x.isOverflow || y.isOverflow) then some (arithOverflow z)
    else
      match mulAcc x y with
      | none => none
      | some acc =>
        if acc.getD 0 0 != 0 || acc.getD 1 0 != 0 then some (arithOverflow z)
        else
          let z := { z with v0 := z.v0.setVal (acc.getD 2 0),
                            v1 := z.v1.setVal (acc.getD 3 0),
                            v2 := z.v2.setVal (acc.getD 4 0),
                            v3 := z.v3.setVal (acc.getD 5 0),
                            v4 := z.v4.setVal (acc.getD 6 0),
                            v5 := z.v5.setVal (acc.getD 7 0) }
          if acc.getD 8 0 != 0 || acc.getD 9 0 != 0 ||
             acc.getD 10 0 != 0 || acc.getD 11 0 != 0 then
            some (z.setUnderflow true)
          else some z

/-- Go `RoundMode` (`RoundTowards`, `RoundAway`, `RoundHalfDown`,
`RoundHalfUp`). -/
inductive RoundMode where
  | towards
  | away
  | halfDown
  | halfUp
deriving DecidableEq

/-- The magnitudes of the six limbs as a list (limb 0 first). -/
def f24.limbVals (f : f24) : List Nat :=
  [f.v0.val, f.v1.val, f.v2.val, f.v3.val, f.v4.val, f.v5.val]

/-- The Go `round` `RoundAway` scan: is any limb strictly less
significant than limb `idx` nonzero? -/
def tailNonzero (x : f24) (idx : Nat) : Bool :=
  (x.limbVals.drop (idx + 1)).any (· != 0)

/-- The carry write-back loop of Go `round`: processes limbs `k-1` down
to `0`, adding the carry into `x`'s limb and storing into `z`; a carry
out of limb 0 is dropped. -/
def roundCarry (x : f24) : Nat → Nat → f24 → f24
  | 0, _, z => z
  | k + 1, carry, z =>
    if h : k < 6 then
      let xi := (x.get ⟨k, h⟩).val + carry
      roundCarry x k (xi / radix) (z.set ⟨k, h⟩ ((z.get ⟨k, h⟩).setVal (xi % radix)))
    else z

/-- The zeroing loop of Go `round` (fuel-driven so that it reduces):
stores 0 in limbs `i`, `i+1`, …, 5. -/
def zeroAboveAux (z : f24) (i : Nat) : Nat → f24
  | 0 => z
  | fuel + 1 =>
    if h : i < 6 then
      zeroAboveAux (z.set ⟨i, h⟩ ((z.get ⟨i, h⟩).setVal 0)) (i + 1) fuel
    else z

/-- The zeroing loop of Go `round`: stores 0 in limbs `i`, `i+1`, …, 5. -/
def zeroAbove (z : f24) (i : Nat) : f24 :=
  zeroAboveAux z i (6 - i)

/-- Read limb `i` of an `f24` by `Nat` index (the zero limb out of
range; the one caller checks the bound first, as Go's bounds check
does). -/
def f24.getN (f : f24) (i : Nat) : fVal :=
  if h : i < 6 then f.get ⟨i, h⟩ else fVal.zero

/-- Write limb `i` of an `f24` by `Nat` index (no-op out of range; the
one caller checks the bound first). -/
def f24.setN (f : f24) (i : Nat) (w : fVal) : f24 :=
  if h : i < 6 then f.set ⟨i, h⟩ w else f

/-- The shared write-back tail of Go `round`: split the rounded value
of the addressed limb into carry and digit, propagate the carry through
the more significant limbs, zero the less significant limbs, and apply
the `shouldBeNeg` sign rule. -/
def roundWrite (x : f24) (idx : Nat) (v : Nat) : f24 :=
  let carry := v / radix
  let v := v % radix
  let z := roundCarry x idx carry f24.zero
  let z := z.setN idx ((z.getN idx).setVal v)
  let z := zeroAbove z (idx + 1)
  z.setNeg (shouldBeNeg z x.isNeg)

/-- Go `arithmetic.round` on a zero-initialized output.  The `places`
argument is the Go `int` `y`; `none` models the index-out-of-range panic
when `places ≥ 36` makes the limb index 6. -/
def roundGo (x : f24) (y : Int) (mode : RoundMode) : Option f24 :=
  let isNeg := x.isNeg
  let finish := fun (z : f24) => z.setNeg (shouldBeNeg z isNeg)
  if x.isNaN then some (finish (f24.zero.setNaN true))
  else if x.isOverflow then some (finish (arithOverflow f24.zero))
  else if x.isZero then some (finish f24.zero)
  else if y < 0 then some (finish (f24.zero.setNaN true))
  else
    let yn := y.toNat
    let idx := decIndex + yn / radixDigits
    if idx < 6 then
      let v := (x.getN idx).val
      let pow := radixDigits - yn % radixDigits
      let p := powers.getD pow 0
      let rem := v % p
      let v := v - rem
      let v :=
        match mode with
        | .away => if rem > 0 then v + p else if tailNonzero x idx then v + p else v
        | .towards => v
        | .halfDown => if rem > p / 2 then v + p else v
        | .halfUp => if rem + 1 > p / 2 then v + p else v
      some (roundWrite x idx v)
    else none

/-! ### The long-division engine (Go `divInner` and the `divArray` helpers)

The Go scratch type is `divArray = [8]int64`; it is modelled as a
`List Int` of length 8.  `int64` overflow (possible in `divArray.mul`
when the quotient estimate is large) is modelled by explicit
two's-complement wrapping; `uint64` conversions reduce modulo `2^64`. -/

/-- The limb radix as an `Int` (Go `radixI`). -/
def radixI : Int := 1000000000

/-- The normalization pivot as an `Int` (Go `radixHalfI`). -/
def radixHalfI : Int := 500000000

/-- Two's-complement wrap of an `Int` into the `int64` range. -/
def wrap64 (v : Int) : Int := (v + 2 ^ 63).emod (2 ^ 64) - 2 ^ 63

/-- A Go `uint64` conversion of an `int64` value. -/
def u64 (v : Int) : Nat := (v.emod (2 ^ 64)).toNat

/-- A Go `uint32` conversion of an `int64` value. -/
def u32 (v : Int) : Nat := (v.emod (2 ^ 32)).toNat

/-- Go `divArray.mul`: multiply each slot (from slot 7 down to 0) by
`x`, carrying between slots; returns the updated array, the carry out of
slot 0, and the lowest index holding a nonzero slot (0 when all slots
are zero).  The slot product is an `int64` and may wrap. -/
def daMul (d : List Int) (x : Int) : List Int × Int × Nat :=
  [7, 6, 5, 4, 3, 2, 1, 0].foldl
    (fun (st : List Int × Int × Nat) i =>
      let (d, carry, fnz) := st
      let product := wrap64 (d.getD i 0 * x + carry)
      let d := d.set i (Int.tmod product radixI)
      let fnz := if d.getD i 0 != 0 then i else fnz
      (d, Int.tdiv product radixI, fnz))
    (d, 0, 0)

/-- Go `divArray.sub`: slot-wise subtraction (slot 7 first) with borrow;
returns the updated array and the final borrow. -/
def daSub (d other : List Int) : List Int × Int :=
  [7, 6, 5, 4, 3, 2, 1, 0].foldl
    (fun (st : List Int × Int) i =>
      let (d, borrow) := st
      let diff := d.getD i 0 - other.getD i 0 - borrow
      if diff < 0 then (d.set i (diff + radixI), 1) else (d.set i diff, 0))
    (d, 0)

/-- Go `divArray.shiftCarry`: when the carry is nonzero, shift every
slot one place toward the least significant end (dropping slot 7) and
put the carry in slot 0. -/
def daShiftCarry (d : List Int) (carry : Int) : List Int :=
  if carry == 0 then d else carry :: d.take 7

/-- Go `divArray.trimZero`: when slot 0 is zero, copy slots 1..6 one
place left (slots 6 and 7 keep their old values — the Go loop stops at
index 6, so slot 6 ends up duplicated and slot 7 is never moved) and
report whether slots 1..6 were all zero.  Returns
`(array, trimmed, isZero)`. -/
def daTrimZero (d : List Int) : List Int × Bool × Bool :=
  if d.getD 0 0 != 0 then (d, false, false)
  else
    let l := [d.getD 1 0, d.getD 2 0, d.getD 3 0, d.getD 4 0, d.getD 5 0,
              d.getD 6 0, d.getD 6 0, d.getD 7 0]
    let isZero := d.getD 1 0 == 0 && d.getD 2 0 == 0 && d.getD 3 0 == 0 &&
                  d.getD 4 0 == 0 && d.getD 5 0 == 0 && d.getD 6 0 == 0
    (l, true, isZero)

/-- Go `divArray.u128`: the 128-bit window
`carry*radix² + d[i]*radix + d[i+1]` as a `(hi, lo)` pair of `uint64`s,
assembled exactly as the Go code does with `bits.Mul64`/`bits.Add64`. -/
def daU128 (d : List Int) (i : Nat) (carry : Int) : Nat × Nat :=
  let lo := (u64 (d.getD i 0) * radix + u64 (d.getD (i + 1) 0)) % 2 ^ 64
  if carry == 0 then (0, lo)
  else
    let a := u64 carry * radix % 2 ^ 64
    let prod := a * radix
    let s := prod % 2 ^ 64 + lo
    (prod / 2 ^ 64 + s / 2 ^ 64, s % 2 ^ 64)

/-- Go `divArray.estimate`: one quotient-digit estimate via
`bits.Div64`.  `none` models the `Div64` panic (zero divisor or
quotient overflow).  Returns the estimate (an `int64`) and the next
carry. -/
def estimate (d : List Int) (i : Nat) (den : Int) (carry : Int) :
    Option (Int × Int) :=
  let denU := u64 den
  let (hi, lo) := daU128 d i carry
  if denU == 0 || hi ≥ denU then none
  else
    let v := hi * 2 ^ 64 + lo
    let q := v / denU
    let r := v % denU
    some (wrap64 (Int.ofNat q), if q == 0 then (Int.ofNat (r / radix)) else 0)

/-- The quotient-digit retry loop of Go `divInner` (the `for q != 0`
loop).  The fuel is the unsigned (`uint64`) reading of `q`, which is
exactly the number of decrements Go can make before `q` reaches zero;
`prod` is *not* reset between retries, matching the Go code.  Returns
`(num, np, carry, final q)`. -/
def divRetry (num : List Int) (np0 : Nat) (carry0 : Int) :
    Nat → List Int → List Int × Nat × Int × Int
  | 0, _ => (num, np0, carry0, 0)
  | n + 1, prod =>
    let q := wrap64 (Int.ofNat (n + 1))
    let (prod, mulCarry, _) := daMul prod q
    let prod := daShiftCarry prod mulCarry
    let (prod, _, _) := daTrimZero prod
    let (rem, borrow) := daSub num prod
    if borrow != 0 then divRetry num np0 carry0 n prod
    else
      let (num', trimmed, _) := daTrimZero rem
      if !trimmed then (num', 1, num'.getD 0 0, q)
      else if num'.getD 0 0 == 0 then (num', 0, 0, q)
      else if np0 != 0 then (num', 1, num'.getD 0 0, q)
      else (num', np0, 0, q)

/-- The digit-producing loop of Go `divInner` (`for i := range len(res)`,
eight iterations).  State is `(num, np, carry, res)`; `none` propagates
an `estimate` panic. -/
def divLoop (dEst : Int) (den : List Int) :
    Nat → Nat → List Int → Nat → Int → List Int → Option (List Int)
  | 0, _, _, _, _, res => some res
  | fuel + 1, i, num, np, carry, res =>
    if num.getD np 0 == 0 && carry == 0 then
      let res := res.set i 0
      let (num, _, isZero) := daTrimZero num
      if isZero then some res
      else divLoop dEst den fuel (i + 1) num np carry res
    else
      match estimate num np dEst carry with
      | none => none
      | some (q, carry) =>
        if q == 0 then
          let (num, trimmed, isZero) := daTrimZero num
          if carry == 0 && isZero then some res
          else divLoop dEst den fuel (i + 1) num (if !trimmed then 1 else np) carry res
        else
          let (num, np, carry, qf) := divRetry num np carry (u64 q) den
          divLoop dEst den fuel (i + 1) num np carry (res.set i qf)

/-- The result-placement loop of Go `divInner`: each digit lands at
`shift + i`; a positive digit left of limb 0 forces overflow, a nonzero
digit right of limb 5 sets underflow, and both cases return
immediately. -/
def placeRes (z : f24) (shift : Int) : Nat → List Int → f24
  | _, [] => z
  | i, v :: rest =>
    let rp := shift + i
    if h : 0 ≤ rp ∧ rp < 6 then
      let j : Fin 6 := ⟨rp.toNat, by omega⟩
      placeRes (z.set j ((z.get j).setVal (u32 v))) shift (i + 1) rest
    else if rp < 0 && v > 0 then arithOverflow z
    else if rp > 5 && v != 0 then z.setUnderflow true
    else placeRes z shift (i + 1) rest

/-- The operand-loading loop of Go `divInner`: skip leading zero limbs,
record the (1-based) position of the first nonzero limb, and copy the
remaining limbs starting at slot 1.  Returns `(arr, ptr, first)`. -/
def divFill (v : List Nat) : List Int × Nat × Nat :=
  (List.range 6).foldl
    (fun (st : List Int × Nat × Nat) i =>
      let (arr, p, first) := st
      let nv : Int := Int.ofNat (v.getD i 0)
      if first != 0 || nv != 0 then
        (arr.set p nv, p + 1, if first == 0 then i + 1 else first)
      else (arr, p, first))
    (List.replicate 8 0, 1, 0)

/-- The shift-compaction of Go `divInner`'s normalization step:
`for i := p; i < 8; i++ { a[j] = a[i]; a[i] = 0; j++ }`, which moves the
slots left by `p` and zero-fills the tail. -/
def compact (a : List Int) (p : Nat) : List Int :=
  a.drop p ++ List.replicate p 0

/-- The normalization step of Go `divInner`: when the numerator's
leading slot is below half the radix, scale both scratch arrays by
`radixHalf / (num[1]+1)` and compact away the leading zeros. -/
def divNormalize (num den : List Int) : List Int × List Int :=
  if num.getD 1 0 < radixHalfI then
    let normalization := Int.tdiv radixHalfI (num.getD 1 0 + 1)
    let st :=
      if normalization != 0 then
        ((daMul num normalization).1, (daMul num normalization).2.2,
         (daMul den normalization).1, (daMul den normalization).2.2)
      else (num, 1, den, 1)
    (if st.2.1 > 0 then compact st.1 st.2.1 else st.1,
     if st.2.2.2 > 0 then compact st.2.2.1 st.2.2.2 else st.2.2.1)
  else (num, den)

/-- Go `divInner` on the caller's partially-flagged output `z`.  `none`
models a `bits.Div64` panic inside `estimate`. -/
def divInner (z x y : f24) : Option f24 :=
  let num0 := (divFill x.limbVals).1
  let firstNum := (divFill x.limbVals).2.2
  let den0 := (divFill y.limbVals).1
  let firstDen := (divFill y.limbVals).2.2
  let shift : Int := 1 + (firstNum : Int) - (firstDen : Int)
  let shift := if num0.getD 1 0 < den0.getD 1 0 then shift + 1 else shift
  let num := (divNormalize num0 den0).1
  let den := (daTrimZero (divNormalize num0 den0).2).1
  let dEst := den.getD 0 0 * radixI + den.getD 1 0
  (divLoop dEst den 8 0 num 0 0 (List.replicate 8 0)).map fun res =>
    let shift := if res.getD 0 0 == 0 then shift - 1 else shift
    placeRes z shift 0 res

/-- Go `arithmetic.div` on a zero-initialized output.  The deferred
`shouldBeNeg` sign fix-up applies to every exit after the NaN check. -/
def divGo (x y : f24) : Option f24 :=
  if x.isNaN || y.isNaN || y.isZero then some (f24.zero.setNaN true)
  else
    let isNeg := x.isNeg != y.isNeg
    let finish := fun (z : f24) => z.setNeg (shouldBeNeg z isNeg)
    if x.isOverflow || y.isOverflow then some (finish (arithOverflow f24.zero))
    else
      let z := f24.zero.setUnderflow (x.isUnderflow || y.isUnderflow)
      if x.isZero then some (finish z)
      else (divInner z x y).map finish

/-- Go `arithmetic.divRem`: `w = x/y`; NaN or overflowed `w` makes both
outputs NaN; otherwise `q = round(w, 0, Towards)` and `r = x - q*y`. -/
def divRemGo (x y : f24) : Option (f24 × f24) :=
  match divGo x y with
  | none => none
  | some w =>
    if w.isNaN || w.isOverflow then some (f24.zero.setNaN true, f24.zero.setNaN true)
    else
      match roundGo w 0 RoundMode.towards with
      | none => none
      | some q =>
        match mul q y with
        | none => none
        | some u => some (q, sub x u)

/-- Go `arithmetic.quanta`: round `x` to the nearest multiple of `y`. -/
def quanta (x y : f24) (mode : RoundMode) : Option f24 :=
  match divGo x y with
  | none => none
  | some w =>
    if w.isNaN || w.isOverflow then some (f24.zero.setNaN true)
    else
      match roundGo w 0 mode with
      | none => none
      | some u => mul u y

/-! ### The digit buffer, text parser and renderer (Go `fixed.go`) -/

/-- Go `f24Int`: build an `f24` from an `int64`. -/
def f24Int (v : Int) : f24 :=
  let isNeg := v < 0
  let f := if isNeg then f24.zero.setNeg true else f24.zero
  let u : Nat := if isNeg then (-v).toNat else v.toNat
  if u ≥ maxValue then overflowF24 isNeg
  else { f with v0 := f.v0.setVal (u / radix), v1 := f.v1.setVal (u % radix) }

/-- Go `digits`: the 54-slot base-10 digit buffer with decimal-point
index, significant-digit count and the four flags. -/
structure digits where
  v : List Nat
  pointIdx : Nat
  count : Nat
  isNeg : Bool
  isNaN : Bool
  isOverflow : Bool
  isUnderflow : Bool
deriving DecidableEq

/-- The zero value of `digits`. -/
def digits.empty : digits :=
  ⟨List.replicate precision 0, 0, 0, false, false, false, false⟩

/-- The parse errors of Go `fixed.go` (the distinct `errors.New`
values; the Go `fmt.Errorf("%w", ...)` wrappers preserve the kind). -/
inductive ParseError where
  | multipleUnderflowSymbols
  | multipleOverflowSymbols
  | multipleMinusSigns
  | multiplePlusSigns
  | invalidDecimalPoint
  | multipleExponents
  | multipleExponentSigns
  | noExponentValue
  | noDigitsInInput
  | invalidCharacter (c : Char)
deriving DecidableEq

/-- The character loop of Go `digits.parsePrefix`: consume `~`, `<`,
`-`, `+` symbols, rejecting a repeated symbol of either sign kind, and
stop at the first other character.  The Go `posSeen` local starts
false. -/
def parseLeadLoop (d : digits) (posSeen : Bool) :
    List Char → Except ParseError (digits × List Char)
  | [] => .ok (d, [])
  | c :: rest =>
    if c = '~' then
      if d.isUnderflow then .error .multipleUnderflowSymbols
      else parseLeadLoop { d with isUnderflow := true } posSeen rest
    else if c = '<' then
      if d.isOverflow then .error .multipleOverflowSymbols
      else parseLeadLoop { d with isOverflow := true } posSeen rest
    else if c = '-' then
      if d.isNeg || posSeen then .error .multipleMinusSigns
      else parseLeadLoop { d with isNeg := true } posSeen rest
    else if c = '+' then
      if d.isNeg || posSeen then .error .multiplePlusSigns
      else parseLeadLoop { d with isNeg := false } true rest
    else .ok (d, c :: rest)

/-- Go `digits.parsePrefix`: the literal `"NaN"` short-circuits, else
the symbol loop runs. -/
def parseLead (d : digits) (s : List Char) :
    Except ParseError (digits × List Char) :=
  if s = ['N', 'a', 'N'] then .ok ({ d with isNaN := true }, [])
  else parseLeadLoop d false s

/-- The scanner state of Go `digits.parseString` (its local
variables).  The exponent accumulator is modelled unbounded; see the
file header. -/
structure scanSt where
  d : List Nat
  count : Nat
  digitCount : Nat
  overflows : Nat
  underflow : Nat
  pointIdx : Nat
  sawDigit : Bool
  expSeen : Bool
  expSign : Int
  decimalSeen : Bool
  hasExp : Bool
  expVal : Nat
  lead : Bool

/-- The character loop of Go `digits.parseString`. -/
def scanChars : List Char → scanSt → Except ParseError scanSt
  | [], st => .ok st
  | c :: rest, st =>
    if '0' ≤ c ∧ c ≤ '9' then
      if st.expSeen then
        scanChars rest { st with
          expSign := if st.expSign == 0 then 1 else st.expSign,
          expVal := st.expVal * 10 + (c.toNat - '0'.toNat),
          hasExp := true }
      else
        let st := { st with sawDigit := true }
        if st.count < precision then
          let u := c.toNat - '0'.toNat
          if u == 0 && !st.lead then scanChars rest st
          else
            scanChars rest { st with
              lead := true,
              d := st.d.set st.count u,
              count := st.count + 1,
              digitCount := if st.decimalSeen then st.digitCount + 1 else st.digitCount }
        else if st.decimalSeen && st.digitCount > maxDecimalPlaces then
          scanChars rest { st with underflow := st.underflow + 1 }
        else scanChars rest { st with overflows := st.overflows + 1 }
    else if c = '.' then
      if st.decimalSeen || st.expSeen then .error .invalidDecimalPoint
      else scanChars rest { st with decimalSeen := true, lead := true, pointIdx := st.count }
    else if c = 'e' ∨ c = 'E' then
      if st.expSeen then .error .multipleExponents
      else scanChars rest { st with expSeen := true }
    else if c = '+' ∨ c = '-' then
      if st.expSign != 0 then .error .multipleExponentSigns
      else scanChars rest { st with expSign := if c = '-' then -1 else 1 }
    else .error (.invalidCharacter c)

/-- Pad or truncate a digit list to the 54-slot capacity. -/
def pad54 (l : List Nat) : List Nat :=
  (l ++ List.replicate precision 0).take precision

/-- The tail of Go `digits.scale`: the decimal-place and whole-digit
range checks, and the final assignment of `count`/`pointIdx` (skipped
when the whole part overflows). -/
def scaleFinish (dg : digits) (pointIdx count : Nat) : digits :=
  let dp := count - pointIdx
  let dg := if dp > maxDecimalPlaces then { dg with isUnderflow := true } else dg
  let whole := count - dp
  if whole > maxWholeDigits then { dg with isOverflow := true }
  else { dg with count := count, pointIdx := pointIdx }

/-- Go `digits.scale`: apply the exponent by moving the decimal point,
flagging overflow when the whole part would exceed 18 digits and
underflow when more than 36 decimal places would be needed; a negative
shift past the start pads leading zeros into the buffer. -/
def scale (dg : digits) (pointIdx count : Nat) (expVal : Nat) (expSign : Int) :
    digits :=
  if expSign == 1 then
    let dp := pointIdx + expVal
    if dp > maxWholeDigits then { dg with isOverflow := true }
    else scaleFinish dg dp (max count dp)
  else if expSign == -1 then
    let dpI : Int := (pointIdx : Int) - (expVal : Int)
    let dg := if (count : Int) - dpI > (maxDecimalPlaces : Int) then
                { dg with isUnderflow := true } else dg
    if dpI ≥ 0 then scaleFinish dg dpI.toNat count
    else
      let insert := min precision (-dpI).toNat
      if insert < precision then
        scaleFinish { dg with v := pad54 (List.replicate insert 0 ++ dg.v.take count) }
          0 (insert + count)
      else scaleFinish { dg with v := List.replicate precision 0 } 0 0
  else scaleFinish dg pointIdx count

/-- Go `digits.parseString`: empty input is NaN; otherwise scan, check
the exponent and digit-presence errors, fold the overflow/underflow
tallies into flags, and scale. -/
def dParseString (dg : digits) (s : List Char) : Except ParseError digits :=
  if s.length == 0 then .ok { dg with isNaN := true }
  else
    match scanChars s ⟨dg.v, 0, 0, 0, 0, 0, false, false, 0, false, false, 0, false⟩ with
    | .error e => .error e
    | .ok st =>
      if st.expSeen && !st.hasExp then .error .noExponentValue
      else if !st.sawDigit then .error .noDigitsInInput
      else if st.overflows > 0 then .ok { dg with v := st.d, isOverflow := true }
      else
        let dg := { dg with v := st.d }
        let dg := if st.underflow > 0 then { dg with isUnderflow := true } else dg
        let pointIdx := if !st.decimalSeen then st.count else st.pointIdx
        .ok (scale dg pointIdx st.count st.expVal st.expSign)

/-- Go `digits.setOverflow`: force the canonical all-nines maximum
digit pattern. -/
def dSetOverflow (dg : digits) : digits :=
  { dg with isOverflow := true, pointIdx := maxWholeDigits, count := precision,
            v := List.replicate precision 9 }

/-- The Unicode White_Space class trimmed by Go `strings.TrimSpace`. -/
def goIsSpace (c : Char) : Bool :=
  c.toNat = 0x9 || c.toNat = 0xA || c.toNat = 0xB || c.toNat = 0xC ||
  c.toNat = 0xD || c.toNat = 0x20 || c.toNat = 0x85 || c.toNat = 0xA0 ||
  c.toNat = 0x1680 || (0x2000 ≤ c.toNat && c.toNat ≤ 0x200A) ||
  c.toNat = 0x2028 || c.toNat = 0x2029 || c.toNat = 0x202F ||
  c.toNat = 0x205F || c.toNat = 0x3000

/-- Go `strings.TrimSpace`. -/
def goTrimSpace (s : List Char) : List Char :=
  ((s.dropWhile goIsSpace).reverse.dropWhile goIsSpace).reverse

/-- Go top-level `parseString`: trim, prefix scan, digit scan, and the
canonical-maximum clamp on overflow. -/
def parseStringTop (s : List Char) : Except ParseError digits :=
  match parseLead digits.empty (goTrimSpace s) with
  | .error e => .error e
  | .ok (d, rest) =>
    if d.isNaN then .ok d
    else
      match dParseString d rest with
      | .error e => .error e
      | .ok d => .ok (if d.isOverflow then dSetOverflow d else d)

/-- The per-segment value accumulation of Go `digits.F24`'s fractional
loop: `val += v*mul` with `mul` starting at `decMul` and dividing by
ten per digit. -/
def fracAccum (seg : List Nat) : Nat :=
  (seg.foldl (fun (st : Nat × Nat) v => (st.1 + v * st.2, st.2 / 10)) (0, decMul)).1

/-- One fractional limb of Go `digits.F24`'s packing loop: while
decimal places remain, pack the next nine digits into limb `p`. -/
def f24FracStep (dv : List Nat) (st : f24 × Nat × Int) (p : Fin 6) : f24 × Nat × Int :=
  if st.2.2 > 0 then
    let len := (min st.2.2 9).toNat
    let val := fracAccum ((dv.drop st.2.1).take len)
    (st.1.set p ((st.1.get p).setVal (val % radix)), st.2.1 + len, st.2.2 - 9)
  else st

/-- The fractional-limb loop of Go `digits.F24`: pack nine digits per
limb into limbs 2..5 while decimal places remain. -/
def f24Frac (dv : List Nat) (pointIdx : Nat) (dp0 : Int) (f : f24) : f24 :=
  (([2, 3, 4, 5] : List (Fin 6)).foldl (f24FracStep dv) (f, pointIdx, dp0)).1

/-- Go `digits.F24`: convert the digit buffer to the packed format.
NaN propagates only sign and NaN; overflow (or more than 18 whole
digits) yields the canonical overflow value carrying the underflow
flag; otherwise the whole digits pack into limbs 0..1 and the decimal
digits into limbs 2..5, with underflow set when more than 36 decimal
places were present. -/
def digitsF24 (d : digits) : f24 :=
  if d.isNaN then (f24.zero.setNeg d.isNeg).setNaN true
  else if d.isOverflow || d.pointIdx > maxWholeDigits then
    (overflowF24 d.isNeg).setUnderflow d.isUnderflow
  else
    let val := (d.v.take d.pointIdx).foldl (fun a v => a * 10 + v) 0
    let f := f24.zero
    let f := { f with v0 := f.v0.setVal (val / radix), v1 := f.v1.setVal (val % radix) }
    let dpN := d.count - d.pointIdx
    let underflow := d.isUnderflow || dpN > maxDecimalPlaces
    let dp : Int := min (dpN : Int) (maxDecimalPlaces : Int)
    let f := f24Frac d.v d.pointIdx dp f
    let f := if d.isNeg then f.setNeg true else f
    if underflow then f.setUnderflow true else f

/-- The nine base-10 digits of one limb, most significant first, as Go
`Digits` produces them (`u := v / mul; v = v % mul`).  A limb at or
above `1e9` — impossible for a well-formed value — makes the first
entry two digits wide, as in Go. -/
def limbDigits (v : Nat) : List Nat :=
  [v / 100000000,
   v % 100000000 / 10000000,
   v % 10000000 / 1000000,
   v % 1000000 / 100000,
   v % 100000 / 10000,
   v % 10000 / 1000,
   v % 1000 / 100,
   v % 100 / 10,
   v % 10]

/-- Go `f24.Digits`: unpack an `f24` into the digit buffer, with
leading-zero suppression across the two integer limbs and exactly nine
stored digits per fractional limb (zero fractional limbs advance the
position without updating the significant count). -/
def digitsOfF24 (f : f24) : digits :=
  let base := { digits.empty with
                isNeg := f.isNeg, isNaN := f.isNaN,
                isOverflow := f.isOverflow, isUnderflow := f.isUnderflow }
  if f.isNaN then base
  else
    let intStep := fun (st : List Nat × Nat × Bool) (v : Nat) =>
      let (arr, pos, lead) := st
      if !lead && v == 0 then (arr, pos, lead)
      else
        (limbDigits v).foldl
          (fun (st2 : List Nat × Nat × Bool) u =>
            let (arr, pos, lead) := st2
            if lead || u != 0 then (arr.set pos u, pos + 1, true) else (arr, pos, lead))
          (arr, pos, lead)
    let (arr, pos, _) := [f.v0.val, f.v1.val].foldl intStep (base.v, 0, false)
    let fracStep := fun (st : List Nat × Nat × Nat) (v : Nat) =>
      let (arr, pos, count) := st
      if v == 0 then (arr, pos + 9, count)
      else
        (limbDigits v).foldl
          (fun (st2 : List Nat × Nat × Nat) u =>
            let (arr2, pos2, count2) := st2
            (arr2.set pos2 u, pos2 + 1, if u != 0 then pos2 + 1 else count2))
          (arr, pos, count)
    let (arr, _, count) :=
      [f.v2.val, f.v3.val, f.v4.val, f.v5.val].foldl fracStep (arr, pos, pos)
    { base with v := arr, pointIdx := pos, count := count }

/-- The digit character for a stored digit value (Go `'0' + v`). -/
def digitChar (v : Nat) : Char := Char.ofNat ('0'.toNat + v)

/-- The fractional rendering loop of Go `digits.String`: at most 36
decimal places, a dot before the first nonzero digit, buffered zero
runs emitted only before a nonzero digit (so trailing zeros drop). -/
def fracString (seg : List Nat) : String :=
  ((seg.take maxDecimalPlaces).foldl
    (fun (st : String × Bool × Nat) v =>
      let (out, dotted, zeros) := st
      if v == 0 then (out, dotted, zeros + 1)
      else
        let out := if !dotted then out ++ "." else out
        let out := out ++ String.mk (List.replicate zeros '0') ++ String.mk [digitChar v]
        (out, true, 0))
    ("", false, 0)).1

/-- Go `digits.String`: the `~`, `-`, `<` markers, then `NaN` (which
discards the markers, as the Go code returns the literal), or the
integer digits (a bare `0` when there are none) and the fractional
part. -/
def digitsString (d : digits) : String :=
  let sb := (if d.isUnderflow then "~" else "") ++ (if d.isNeg then "-" else "") ++
            (if d.isOverflow then "<" else "")
  if d.isNaN then "NaN"
  else if d.count == 0 then sb ++ "0"
  else
    let ip := if d.pointIdx == 0 then "0"
              else String.mk ((d.v.take d.pointIdx).map digitChar)
    sb ++ ip ++ fracString ((d.v.drop d.pointIdx).take (d.count - d.pointIdx))

/-- Go `f24String` (via `parseString` and `digits.F24`). -/
def f24OfString (s : String) : Except ParseError f24 :=
  match parseStringTop s.data with
  | .error e => .error e
  | .ok d => .ok (digitsF24 d)

/-- Go `Numeric.String`: render via the digit buffer. -/
def numericString (f : f24) : String :=
  digitsString (digitsOfF24 f)

/-- The five input shapes of Go `f24Float64`'s `switch` on a `float64`:
NaN, the two infinities, zero, or a finite nonzero value.  Go renders
the finite case with `strconv.AppendFloat(buf[:0], v, 'g', -1, 64)`
and re-parses the text; the `finite` constructor carries that rendered
string, the one fact about the value the rest of the function uses. -/
inductive GoFloat where
  | nan
  | posInf
  | negInf
  | zero
  | finite (s : String)
deriving DecidableEq

/-- Whether a string contains an ASCII digit.  `strconv.AppendFloat`
output for a finite nonzero value always does; this is the (external,
standard-library) guarantee under which `f24Float64`'s parse cannot
yield NaN. -/
def hasDigit (s : String) : Bool :=
  s.data.any fun c => decide ('0' ≤ c ∧ c ≤ '9')

/-- A `GoFloat` whose finite rendering is a possible
`strconv.AppendFloat` output (it contains a digit). -/
def goFloatFormatted : GoFloat → Bool
  | .finite s => hasDigit s
  | _ => true

/-- Go `f24Float64` over the input shape: a NaN input sets only the
NaN flag, the infinities map to the signed canonical overflow, zero is
zero, and a finite value parses its rendered text, falling back to NaN
when the parse fails. -/
def f24Float64 : GoFloat → f24
  | .nan => f24.zero.setNaN true
  | .posInf => overflowF24 false
  | .negInf => overflowF24 true
  | .zero => f24.zero
  | .finite s =>
    match parseStringTop s.data with
    | .error _ => f24.zero.setNaN true
    | .ok d => digitsF24 d

/-- Limb magnitudes are in range: the well-formedness invariant claimed
for every parsed or computed value. -/
def f24.validLimbs (f : f24) : Prop :=
  ∀ i : Fin 6, (f.get i).val < radix

instance (f : f24) : Decidable f.validLimbs := by
  unfold f24.validLimbs; infer_instance

/-- The flag purity of a NaN claimed by the spec: negative, overflow and
underflow all clear. -/
def flagPure (z : f24) : Prop :=
  z.isNeg = false ∧ z.isOverflow = false ∧ z.isUnderflow = false

end NumericDef

namespace NumericDef

/-! ### Flag bookkeeping lemmas -/

theorem flag_setVal (f : fVal) (v : Nat) : (f.setVal v).flag = f.flag := rfl

theorem val_setVal (f : fVal) (v : Nat) : (f.setVal v).val = v % 2 ^ 31 := rfl

@[simp] theorem isNaN_setNeg (f : f24) (b : Bool) : (f.setNeg b).isNaN = f.isNaN := rfl

@[simp] theorem isNaN_setOverflow (f : f24) (b : Bool) : (f.setOverflow b).isNaN = f.isNaN := rfl

@[simp] theorem isNaN_setUnderflow (f : f24) (b : Bool) : (f.setUnderflow b).isNaN = f.isNaN := rfl

@[simp] theorem isNaN_setNaN (f : f24) (b : Bool) : (f.setNaN b).isNaN = b := rfl

@[simp] theorem isNeg_setNaN (f : f24) (b : Bool) : (f.setNaN b).isNeg = f.isNeg := rfl

@[simp] theorem isNeg_setOverflow (f : f24) (b : Bool) : (f.setOverflow b).isNeg = f.isNeg := rfl

@[simp] theorem isNeg_setUnderflow (f : f24) (b : Bool) : (f.setUnderflow b).isNeg = f.isNeg := rfl

@[simp] theorem isNeg_setNeg (f : f24) (b : Bool) : (f.setNeg b).isNeg = b := rfl

@[simp] theorem isOverflow_setNeg (f : f24) (b : Bool) : (f.setNeg b).isOverflow = f.isOverflow := rfl

@[simp] theorem isOverflow_setNaN (f : f24) (b : Bool) : (f.setNaN b).isOverflow = f.isOverflow := rfl

@[simp] theorem isOverflow_setUnderflow (f : f24) (b : Bool) :
    (f.setUnderflow b).isOverflow = f.isOverflow := rfl

@[simp] theorem isOverflow_setOverflow (f : f24) (b : Bool) : (f.setOverflow b).isOverflow = b := rfl

@[simp] theorem isUnderflow_setNeg (f : f24) (b : Bool) :
    (f.setNeg b).isUnderflow = f.isUnderflow := rfl

@[simp] theorem isUnderflow_setNaN (f : f24) (b : Bool) :
    (f.setNaN b).isUnderflow = f.isUnderflow := rfl

@[simp] theorem isUnderflow_setOverflow (f : f24) (b : Bool) :
    (f.setOverflow b).isUnderflow = f.isUnderflow := rfl

@[simp] theorem isUnderflow_setUnderflow (f : f24) (b : Bool) : (f.setUnderflow b).isUnderflow = b := rfl

@[simp] theorem isNaN_arithOverflow (z : f24) : (arithOverflow z).isNaN = z.isNaN := rfl

@[simp] theorem isNaN_overflowF24 (b : Bool) : (overflowF24 b).isNaN = false := rfl

@[simp] theorem isNeg_overflowF24 (b : Bool) : (overflowF24 b).isNeg = b := rfl

@[simp] theorem isOverflow_overflowF24 (b : Bool) : (overflowF24 b).isOverflow = true := rfl

@[simp] theorem isUnderflow_overflowF24 (b : Bool) : (overflowF24 b).isUnderflow = false := rfl

@[simp] theorem isNaN_zero : f24.zero.isNaN = false := rfl

@[simp] theorem isNeg_zero : f24.zero.isNeg = false := rfl

@[simp] theorem isOverflow_zero : f24.zero.isOverflow = false := rfl

@[simp] theorem isUnderflow_zero : f24.zero.isUnderflow = false := rfl

/-- Writing a limb with a flag-preserving store keeps the NaN flag. -/
theorem isNaN_set_setVal (z : f24) (j : Fin 6) (v : Nat) :
    (z.set j ((z.get j).setVal v)).isNaN = z.isNaN := by
  fin_cases j <;> rfl

theorem isNaN_unsignedAdd (z x y : f24) (h : z.isNaN = false) :
    (unsignedAdd z x y).isNaN = false := by
  simp only [unsignedAdd]
  split
  · rfl
  · simpa [f24.isNaN, fVal.setVal] using h

theorem isNaN_unsignedSub (z a b : f24) : (unsignedSub z a b).isNaN = z.isNaN := by
  simp only [unsignedSub, f24.isNaN, fVal.setVal]

instance {ε α : Type} [DecidableEq ε] [DecidableEq α] : DecidableEq (Except ε α) :=
  fun a b =>
    match a, b with
    | .ok x, .ok y => if h : x = y then .isTrue (by rw [h]) else .isFalse (by simp [h])
    | .error x, .error y => if h : x = y then .isTrue (by rw [h]) else .isFalse (by simp [h])
    | .ok _, .error _ => .isFalse (by simp)
    | .error _, .ok _ => .isFalse (by simp)

@[simp] theorem isNeg_arithOverflow (z : f24) : (arithOverflow z).isNeg = z.isNeg := rfl

@[simp] theorem isOverflow_arithOverflow (z : f24) : (arithOverflow z).isOverflow = true := rfl

@[simp] theorem isUnderflow_arithOverflow (z : f24) :
    (arithOverflow z).isUnderflow = z.isUnderflow := rfl

/-- Every limb of `arithOverflow z` holds the canonical maximum. -/
theorem arithOverflow_limbs (z : f24) :
    (arithOverflow z).v0.val = maxDigit ∧ (arithOverflow z).v1.val = maxDigit ∧
    (arithOverflow z).v2.val = maxDigit ∧ (arithOverflow z).v3.val = maxDigit ∧
    (arithOverflow z).v4.val = maxDigit ∧ (arithOverflow z).v5.val = maxDigit := by
  refine ⟨?_, ?_, ?_, ?_, ?_, ?_⟩ <;> exact (by decide : maxDigit % 2 ^ 31 = maxDigit)

set_option maxRecDepth 40000

/-! ### NaN flag-purity lemmas -/

theorem isNaN_roundCarry (x : f24) :
    ∀ (k : Nat) (c : Nat) (z : f24), (roundCarry x k c z).isNaN = z.isNaN := by
  intro k
  induction k with
  | zero => intro c z; rfl
  | succ n ih =>
    intro c z
    simp only [roundCarry]
    split
    · rw [ih, isNaN_set_setVal]
    · rfl

theorem isNaN_setN_setVal (z : f24) (i : Nat) (v : Nat) :
    (z.setN i ((z.getN i).setVal v)).isNaN = z.isNaN := by
  unfold f24.setN f24.getN
  split
  · exact isNaN_set_setVal _ _ _
  · rfl

theorem isNaN_zeroAboveAux :
    ∀ (fuel : Nat) (z : f24) (i : Nat), (zeroAboveAux z i fuel).isNaN = z.isNaN := by
  intro fuel
  induction fuel with
  | zero => intro z i; rfl
  | succ n ih =>
    intro z i
    simp only [zeroAboveAux]
    split
    · rw [ih, isNaN_set_setVal]
    · rfl

theorem isNaN_zeroAbove (z : f24) (i : Nat) : (zeroAbove z i).isNaN = z.isNaN :=
  isNaN_zeroAboveAux _ z i

theorem isNaN_roundWrite (x : f24) (idx v : Nat) : (roundWrite x idx v).isNaN = false := by
  simp only [roundWrite, isNaN_setNeg, isNaN_zeroAbove, isNaN_setN_setVal, isNaN_roundCarry]
  rfl

theorem flagPure_roundGo (x : f24) (y : Int) (mode : RoundMode) (z : f24)
    (hm : roundGo x y mode = some z) (h : z.isNaN = true) : flagPure z := by
  simp only [roundGo] at hm
  by_cases h1 : x.isNaN = true
  · rw [if_pos h1] at hm
    injection hm with hh
    rw [← hh]
    exact ⟨rfl, rfl, rfl⟩
  · rw [if_neg h1] at hm
    by_cases h2 : x.isOverflow = true
    · rw [if_pos h2] at hm
      injection hm with hh
      rw [← hh] at h
      simp at h
    · rw [if_neg h2] at hm
      by_cases h3 : x.isZero = true
      · rw [if_pos h3] at hm
        injection hm with hh
        rw [← hh] at h
        simp at h
      · rw [if_neg h3] at hm
        by_cases h4 : y < 0
        · rw [if_pos h4] at hm
          injection hm with hh
          rw [← hh]
          exact ⟨rfl, rfl, rfl⟩
        · rw [if_neg h4] at hm
          by_cases h5 : decIndex + y.toNat / radixDigits < 6
          · rw [if_pos h5] at hm
            injection hm with hh
            rw [← hh] at h
            rw [isNaN_roundWrite] at h
            exact absurd h (by simp)
          · rw [if_neg h5] at hm
            exact absurd hm (by simp)

theorem isNaN_negate (x : f24) : (negate x).isNaN = x.isNaN := by
  cases hx : x.isNaN <;> simp [negate, hx]

theorem isNaN_absF24 (x : f24) : (absF24 x).isNaN = x.isNaN := by
  cases hx : x.isNaN <;> simp [absF24, hx]

theorem isNaN_add (x y : f24) : (add x y).isNaN = (x.isNaN || y.isNaN) := by
  cases hxy : (x.isNaN || y.isNaN) with
  | true => simp [add, hxy]
  | false =>
    simp only [add, hxy, Bool.false_eq_true, if_false]
    set z0 := if (x.isUnderflow || y.isUnderflow) = true then f24.zero.setUnderflow true
              else f24.zero with hz0
    have hz0n : z0.isNaN = false := by rw [hz0]; split_ifs <;> rfl
    have hset : ∀ b : Bool, (z0.setNeg b).isNaN = false := by simp [hz0n]
    split_ifs
    · simp [hz0n]
    · exact isNaN_unsignedAdd _ _ _ (hset _)
    · simp [hz0n]
    · exact hz0n
    · simp [isNaN_unsignedSub, hz0n]
    · simp [isNaN_unsignedSub, hz0n]

theorem isNaN_sub (x y : f24) : (sub x y).isNaN = (x.isNaN || y.isNaN) := by
  rw [sub, isNaN_add, isNaN_negate]

theorem isNaN_mul (x y : f24) (z : f24) (hm : mul x y = some z) :
    z.isNaN = (x.isNaN || y.isNaN) := by
  cases hxy : (x.isNaN || y.isNaN) with
  | true =>
    have hval : mul x y = some (f24.zero.setNaN true) := by simp [mul, hxy]
    rw [hval] at hm
    injection hm with hm
    rw [← hm]
    rfl
  | false =>
    simp only [mul, hxy, Bool.false_eq_true, if_false] at hm
    rcases hacc : mulAcc x y with _ | acc <;> rw [hacc] at hm <;> dsimp only at hm <;>
      split_ifs at hm <;> injection hm with hh <;> rw [← hh] <;>
      simp [f24.isNaN, f24.setNeg, f24.setUnderflow, fVal.setVal, fVal.setFlag,
        f24.zero, fVal.zero, arithOverflow, f24.setOverflow]

theorem flagPure_add (x y : f24) (h : (add x y).isNaN = true) : flagPure (add x y) := by
  have hxy : (x.isNaN || y.isNaN) = true := by rw [← isNaN_add]; exact h
  have hval : add x y = f24.zero.setNaN true := by simp [add, hxy]
  rw [hval]
  exact ⟨rfl, rfl, rfl⟩

theorem flagPure_sub (x y : f24) (h : (sub x y).isNaN = true) : flagPure (sub x y) :=
  flagPure_add x (negate y) h

theorem flagPure_negate (x : f24) (h : (negate x).isNaN = true) : flagPure (negate x) := by
  have hx : x.isNaN = true := by rw [← isNaN_negate]; exact h
  have hval : negate x = f24.zero.setNaN true := by simp [negate, hx]
  rw [hval]
  exact ⟨rfl, rfl, rfl⟩

theorem flagPure_absF24 (x : f24) (h : (absF24 x).isNaN = true) : flagPure (absF24 x) := by
  have hx : x.isNaN = true := by rw [← isNaN_absF24]; exact h
  have hval : absF24 x = f24.zero.setNaN true := by simp [absF24, hx]
  rw [hval]
  exact ⟨rfl, rfl, rfl⟩

theorem flagPure_mul (x y z : f24) (hm : mul x y = some z) (h : z.isNaN = true) :
    flagPure z := by
  have hxy : (x.isNaN || y.isNaN) = true := by rw [← isNaN_mul x y z hm]; exact h
  have hval : mul x y = some (f24.zero.setNaN true) := by simp [mul, hxy]
  rw [hval] at hm
  injection hm with hh
  rw [← hh]
  exact ⟨rfl, rfl, rfl⟩

theorem isNaN_placeRes (sh : Int) :
    ∀ (l : List Int) (i : Nat) (z : f24), (placeRes z sh i l).isNaN = z.isNaN := by
  intro l
  induction l with
  | nil => intro i z; rfl
  | cons v rest ih =>
    intro i z
    simp only [placeRes]
    split
    · rw [ih, isNaN_set_setVal]
    · split
      · exact isNaN_arithOverflow z
      · split
        · rfl
        · exact ih _ _

theorem isNaN_divInner (z x y w : f24) (hm : divInner z x y = some w) :
    w.isNaN = z.isNaN := by
  simp only [divInner, Option.map_eq_some'] at hm
  obtain ⟨res, _, hres⟩ := hm
  rw [← hres]
  simp only [isNaN_placeRes]

theorem flagPure_divGo (x y : f24) (z : f24) (hm : divGo x y = some z)
    (h : z.isNaN = true) : flagPure z := by
  simp only [divGo] at hm
  by_cases h1 : (x.isNaN || y.isNaN || y.isZero) = true
  · rw [if_pos h1] at hm
    injection hm with hh
    rw [← hh]
    exact ⟨rfl, rfl, rfl⟩
  · rw [if_neg h1] at hm
    by_cases h2 : (x.isOverflow || y.isOverflow) = true
    · rw [if_pos h2] at hm
      injection hm with hh
      rw [← hh] at h
      simp at h
    · rw [if_neg h2] at hm
      by_cases h3 : x.isZero = true
      · rw [if_pos h3] at hm
        injection hm with hh
        rw [← hh] at h
        simp at h
      · rw [if_neg h3] at hm
        rcases ho : divInner (f24.zero.setUnderflow (x.isUnderflow || y.isUnderflow)) x y
            with _ | w <;> rw [ho] at hm
        · exact absurd hm (by simp)
        · rw [Option.map_some'] at hm
          injection hm with hh
          rw [← hh] at h
          rw [isNaN_setNeg, isNaN_divInner _ _ _ _ ho] at h
          simp at h

theorem flagPure_divRemGo (x y q r : f24) (hm : divRemGo x y = some (q, r)) :
    (q.isNaN = true → flagPure q) ∧ (r.isNaN = true → flagPure r) := by
  simp only [divRemGo] at hm
  rcases hw : divGo x y with _ | w <;> rw [hw] at hm <;> dsimp only at hm
  · exact absurd hm (by simp)
  · by_cases hnan : (w.isNaN || w.isOverflow) = true
    · rw [if_pos hnan] at hm
      injection hm with hh
      have hq : f24.zero.setNaN true = q := congrArg Prod.fst hh
      have hr : f24.zero.setNaN true = r := congrArg Prod.snd hh
      rw [← hq, ← hr]
      exact ⟨fun _ => ⟨rfl, rfl, rfl⟩, fun _ => ⟨rfl, rfl, rfl⟩⟩
    · rw [if_neg hnan] at hm
      rcases hrg : roundGo w 0 RoundMode.towards with _ | q' <;> rw [hrg] at hm <;>
        dsimp only at hm
      · exact absurd hm (by simp)
      · rcases hmu : mul q' y with _ | u <;> rw [hmu] at hm <;> dsimp only at hm
        · exact absurd hm (by simp)
        · injection hm with hh
          have hq : q' = q := congrArg Prod.fst hh
          have hr : sub x u = r := congrArg Prod.snd hh
          constructor
          · intro hq1
            rw [← hq] at hq1 ⊢
            exact flagPure_roundGo w 0 RoundMode.towards q' hrg hq1
          · intro hr1
            rw [← hr] at hr1 ⊢
            exact flagPure_sub x u hr1

theorem flagPure_quanta (x y : f24) (m : RoundMode) (z : f24) (hm : quanta x y m = some z)
    (h : z.isNaN = true) : flagPure z := by
  simp only [quanta] at hm
  rcases hw : divGo x y with _ | w <;> rw [hw] at hm <;> dsimp only at hm
  · exact absurd hm (by simp)
  · by_cases hnan : (w.isNaN || w.isOverflow) = true
    · rw [if_pos hnan] at hm
      injection hm with hh
      rw [← hh]
      exact ⟨rfl, rfl, rfl⟩
    · rw [if_neg hnan] at hm
      rcases hrg : roundGo w 0 m with _ | u <;> rw [hrg] at hm <;> dsimp only at hm
      · exact absurd hm (by simp)
      · exact flagPure_mul u y z hm h

theorem isNaN_f24FracStep (dv : List Nat) (st : f24 × Nat × Int) (p : Fin 6) :
    (f24FracStep dv st p).1.isNaN = st.1.isNaN := by
  simp only [f24FracStep]
  split
  · exact isNaN_set_setVal _ _ _
  · rfl

theorem isNaN_f24Frac (dv : List Nat) (pointIdx : Nat) (dp0 : Int) (f : f24) :
    (f24Frac dv pointIdx dp0 f).isNaN = f.isNaN := by
  simp only [f24Frac, List.foldl, isNaN_f24FracStep]

theorem isNaN_f24Int (v : Int) : (f24Int v).isNaN = false := by
  simp only [f24Int]
  split_ifs <;> rfl

theorem isNaN_digitsF24 (d : digits) : (digitsF24 d).isNaN = d.isNaN := by
  simp only [digitsF24]
  by_cases h1 : d.isNaN = true
  · rw [if_pos h1, h1]
    rfl
  · have h1' : d.isNaN = false := by simpa using h1
    rw [if_neg h1, h1']
    by_cases h2 : (d.isOverflow || decide (d.pointIdx > maxWholeDigits)) = true
    · rw [if_pos h2]
      simp
    · rw [if_neg h2]
      split_ifs <;> simp only [isNaN_setUnderflow, isNaN_setNeg, isNaN_f24Frac] <;> rfl

theorem parse_nan_flags (s : String) (z : f24) (hm : f24OfString s = Except.ok z)
    (h : z.isNaN = true) : z.isOverflow = false ∧ z.isUnderflow = false := by
  simp only [f24OfString] at hm
  rcases hp : parseStringTop s.data with e | d <;> rw [hp] at hm <;> dsimp only at hm
  · injection hm
  · injection hm with hh
    rw [← hh] at h ⊢
    have hd : d.isNaN = true := by rw [← isNaN_digitsF24]; exact h
    have hval : digitsF24 d = (f24.zero.setNeg d.isNeg).setNaN true := by
      simp [digitsF24, hd]
    rw [hval]
    exact ⟨rfl, rfl⟩

theorem numericString_nan (z : f24) (h : z.isNaN = true) : numericString z = "NaN" := by
  simp only [numericString, digitsOfF24, digitsString, h, if_true]

theorem isNaN_parseLeadLoop :
    ∀ (l : List Char) (dg : digits) (ps : Bool) (d' : digits) (rest : List Char),
      parseLeadLoop dg ps l = .ok (d', rest) → d'.isNaN = dg.isNaN := by
  intro l
  induction l with
  | nil =>
    intro dg ps d' rest h
    injection h with h2
    rw [Prod.mk.injEq] at h2
    rw [← h2.1]
  | cons a t ih =>
    intro dg ps d' rest h
    simp only [parseLeadLoop] at h
    split_ifs at h <;>
      first
        | (injection h with h2
           rw [Prod.mk.injEq] at h2
           rw [← h2.1])
        | injection h
        | rw [ih _ _ _ _ h]

theorem parseLeadLoop_rest_ne (c : Char) (hc : '0' ≤ c ∧ c ≤ '9') :
    ∀ (l : List Char) (dg : digits) (ps : Bool) (d' : digits) (rest : List Char),
      c ∈ l → parseLeadLoop dg ps l = .ok (d', rest) → rest ≠ [] := by
  intro l
  induction l with
  | nil =>
    intro dg ps d' rest hmem _
    exact absurd hmem (by simp)
  | cons a t ih =>
    intro dg ps d' rest hmem h
    simp only [parseLeadLoop] at h
    split_ifs at h with e1 e2 e3 e4 e5 e6 e7 e8 <;>
      first
        | (injection h with h2
           rw [Prod.mk.injEq] at h2
           rw [← h2.2]
           simp)
        | injection h
        | (refine ih _ _ _ _ ?_ h
           rcases List.mem_cons.mp hmem with h1 | h1
           · subst h1
             first
               | (rw [e1] at hc; exact absurd hc (by decide))
               | (rw [e3] at hc; exact absurd hc (by decide))
               | (rw [e5] at hc; exact absurd hc (by decide))
               | (rw [e7] at hc; exact absurd hc (by decide))
           · exact h1)

theorem mem_dropWhile_of_not (p : Char → Bool) (c : Char) (hc : p c = false) :
    ∀ l : List Char, c ∈ l → c ∈ l.dropWhile p := by
  intro l
  induction l with
  | nil => intro h; exact absurd h (by simp)
  | cons a t ih =>
    intro h
    rw [List.dropWhile_cons]
    by_cases hpa : p a = true
    · rw [if_pos hpa]
      apply ih
      rcases List.mem_cons.mp h with h1 | h1
      · exfalso
        rw [h1, hpa] at hc
        simp at hc
      · exact h1
    · rw [if_neg hpa]
      exact h

theorem mem_goTrimSpace (s : List Char) (c : Char) (h : c ∈ s)
    (hsp : goIsSpace c = false) : c ∈ goTrimSpace s := by
  have h1 := mem_dropWhile_of_not goIsSpace c hsp s h
  have h2 : c ∈ (s.dropWhile goIsSpace).reverse := List.mem_reverse.mpr h1
  have h3 := mem_dropWhile_of_not goIsSpace c hsp _ h2
  exact List.mem_reverse.mpr h3

theorem isNaN_scaleFinish (dg : digits) (p c : Nat) :
    (scaleFinish dg p c).isNaN = dg.isNaN := by
  simp only [scaleFinish]
  split_ifs <;> rfl

theorem isNaN_scale (dg : digits) (p c ev : Nat) (es : Int) :
    (scale dg p c ev es).isNaN = dg.isNaN := by
  simp only [scale]
  split_ifs <;> simp only [isNaN_scaleFinish]

theorem isNaN_dParseString (dg : digits) (s : List Char) (d : digits)
    (hs : s ≠ []) (h : dParseString dg s = .ok d) : d.isNaN = dg.isNaN := by
  simp only [dParseString] at h
  rw [if_neg (by simpa using hs)] at h
  rcases hsc : scanChars s
      (⟨dg.v, 0, 0, 0, 0, 0, false, false, 0, false, false, 0, false⟩ : scanSt)
      with e | st <;> rw [hsc] at h <;> dsimp only at h
  · injection h
  · split_ifs at h <;>
      injection h with h2 <;>
      rw [← h2] <;>
      first
        | rfl
        | rw [isNaN_scale]

theorem parse_digit_not_nan (s : List Char) (c : Char) (hmem : c ∈ s)
    (hc : '0' ≤ c ∧ c ≤ '9') (d : digits) (h : parseStringTop s = .ok d) :
    d.isNaN = false := by
  have hsp : goIsSpace c = false := by
    rcases hc with ⟨hc1, hc2⟩
    simp only [goIsSpace]
    have b1 : 48 ≤ c.toNat := hc1
    have b2 : c.toNat ≤ 57 := hc2
    simp only [Bool.or_eq_false_iff, decide_eq_false_iff_not, Bool.and_eq_false_iff]
    omega
  have hmem' : c ∈ goTrimSpace s := mem_goTrimSpace s c hmem hsp
  simp only [parseStringTop] at h
  rcases hp : parseLead digits.empty (goTrimSpace s) with e | p <;> rw [hp] at h <;>
    dsimp only at h
  · injection h
  · obtain ⟨d1, rest⟩ := p
    simp only [parseLead] at hp
    by_cases hnan : goTrimSpace s = ['N', 'a', 'N']
    · exfalso
      rw [hnan] at hmem'
      rcases hc with ⟨hc1, hc2⟩
      rcases List.mem_cons.mp hmem' with h1 | h1
      · rw [h1] at hc2; exact absurd hc2 (by decide)
      rcases List.mem_cons.mp h1 with h2 | h2
      · rw [h2] at hc2; exact absurd hc2 (by decide)
      rcases List.mem_cons.mp h2 with h3 | h3
      · rw [h3] at hc2; exact absurd hc2 (by decide)
      · exact absurd h3 (by simp)
    · rw [if_neg hnan] at hp
      have hd1 : d1.isNaN = false := by
        rw [isNaN_parseLeadLoop _ _ _ _ _ hp]
        rfl
      have hrest : rest ≠ [] :=
        parseLeadLoop_rest_ne c hc (goTrimSpace s) digits.empty false d1 rest hmem' hp
      rw [if_neg (by simp [hd1])] at h
      rcases hdp : dParseString d1 rest with e | d2 <;> rw [hdp] at h <;> dsimp only at h
      · injection h
      · injection h with h2
        rw [← h2]
        have hd2 : d2.isNaN = d1.isNaN := isNaN_dParseString d1 rest d2 hrest hdp
        split_ifs
        · show (dSetOverflow d2).isNaN = false
          have hso : (dSetOverflow d2).isNaN = d2.isNaN := rfl
          rw [hso, hd2, hd1]
        · rw [hd2, hd1]

theorem flagPure_f24Float64 (v : GoFloat) (hfmt : goFloatFormatted v = true)
    (h : (f24Float64 v).isNaN = true) : flagPure (f24Float64 v) := by
  cases v with
  | nan => exact ⟨rfl, rfl, rfl⟩
  | posInf => exact absurd h (by decide)
  | negInf => exact absurd h (by decide)
  | zero => exact absurd h (by decide)
  | finite s =>
    obtain ⟨c, hmem, hc⟩ : ∃ c ∈ s.data, ('0' ≤ c ∧ c ≤ '9') := by
      simpa [goFloatFormatted, hasDigit] using hfmt
    have key : ∀ r : Except ParseError digits, parseStringTop s.data = r →
        flagPure (f24Float64 (GoFloat.finite s)) ∨
          (f24Float64 (GoFloat.finite s)).isNaN = false := by
      intro r hr
      cases r with
      | error e =>
        left
        simp only [f24Float64]
        rw [hr]
        exact ⟨rfl, rfl, rfl⟩
      | ok d =>
        right
        simp only [f24Float64]
        rw [hr]
        dsimp only
        rw [isNaN_digitsF24]
        exact parse_digit_not_nan s.data c hmem hc d hr
    rcases key _ rfl with hk | hk
    · exact hk
    · rw [hk] at h
      exact absurd h (by simp)


/-! ### The claims -/

/-- C1: with flag-free operands, `div(z, 1, 3)` produces the value
0.333333333333333333333333333333333333 — both integer limbs zero and
all four fractional limbs 333333333 — with the underflow flag set
(limb 3's flag) and no other flag; and `div(z, 6, 3)` produces exactly
2 with no flags set. -/
theorem c1_div_underflow_examples :
    divGo (f24Int 1) (f24Int 3) =
      some ⟨⟨0, false⟩, ⟨0, false⟩, ⟨333333333, false⟩, ⟨333333333, true⟩,
            ⟨333333333, false⟩, ⟨333333333, false⟩⟩ ∧
    divGo (f24Int 6) (f24Int 3) =
      some ⟨⟨0, false⟩, ⟨2, false⟩, ⟨0, false⟩, ⟨0, false⟩, ⟨0, false⟩,
            ⟨0, false⟩⟩ := by
  constructor
  · decide
  · decide

/-- C2 counterexample: for x = 0.049999999 (a flag-free, nonzero value
whose limb 2 is 49999999) and places = 1, the unit is p = 10^8, the
remainder is rem = 49999999, and rem + 1 = 50000000 = p/2 reaches half
the unit; the claim then demands a round-up (result 0.1), but the code
tests `rem + 1 > p/2` and returns exactly zero. -/
theorem c2_halfup_boundary_counterexample :
    roundGo ⟨⟨0, false⟩, ⟨0, false⟩, ⟨49999999, false⟩, ⟨0, false⟩, ⟨0, false⟩,
             ⟨0, false⟩⟩ 1 RoundMode.halfUp = some f24.zero ∧
    49999999 + 1 ≥ 100000000 / 2 ∧
    f24.zero ≠ ⟨⟨0, false⟩, ⟨0, false⟩, ⟨100000000, false⟩, ⟨0, false⟩, ⟨0, false⟩,
                ⟨0, false⟩⟩ := by
  refine ⟨by decide, by decide, by decide⟩

/-- The round-up decision described by the (amended) claim, stated from
its words: *Towards* never rounds up; *Away* rounds up whenever the
remainder or any less-significant limb is nonzero; *HalfDown* rounds up
exactly when the remainder strictly exceeds half the unit; *HalfUp*
(amended) rounds up exactly when the remainder reaches or exceeds half
the unit, i.e. when `rem + 1` strictly exceeds `p/2`. -/
def bumpSpec (mode : RoundMode) (rem p : Nat) (tail : Bool) : Bool :=
  match mode with
  | .towards => false
  | .away => rem != 0 || tail
  | .halfDown => decide (rem > p / 2)
  | .halfUp => decide (rem ≥ p / 2)

/-- C2 (amended): for every non-NaN, non-overflow, nonzero `x` and
`0 ≤ places ≤ 35` (for `places ≥ 36` the code indexes limb 6 and
panics), `round` produces exactly the addressed limb's kept part plus
the `bumpSpec` round-up, written back through the shared
carry/zero/sign tail: rem is dropped by *Towards*, *Away* rounds up iff
rem or a less-significant limb is nonzero, *HalfDown* iff rem > p/2,
and *HalfUp* iff rem ≥ p/2. -/
theorem c2_round_mode_rule (x : f24) (mode : RoundMode) (places : Nat)
    (hp : places ≤ 35) (hn : x.isNaN = false) (ho : x.isOverflow = false)
    (hz : x.isZero = false) :
    roundGo x (places : Int) mode =
      some (roundWrite x (decIndex + places / radixDigits)
        ((x.getN (decIndex + places / radixDigits)).val -
          (x.getN (decIndex + places / radixDigits)).val %
            powers.getD (radixDigits - places % radixDigits) 0 +
          (if bumpSpec mode
              ((x.getN (decIndex + places / radixDigits)).val %
                powers.getD (radixDigits - places % radixDigits) 0)
              (powers.getD (radixDigits - places % radixDigits) 0)
              (tailNonzero x (decIndex + places / radixDigits)) = true
           then powers.getD (radixDigits - places % radixDigits) 0 else 0))) := by
  have hlt : ¬ ((places : Int) < 0) := by simp
  have hidx : decIndex + places / radixDigits < 6 := by
    have h9 : places / radixDigits ≤ 35 / 9 := Nat.div_le_div_right hp
    simp [radixDigits] at h9
    simp [decIndex, radixDigits]
    omega
  simp only [roundGo, hn, ho, hz, Bool.false_eq_true, if_false, hlt, Int.toNat_natCast]
  rw [if_pos hidx]
  refine congrArg (fun w => some (roundWrite x (decIndex + places / radixDigits) w)) ?_
  set v := (x.getN (decIndex + places / radixDigits)).val with hv
  set p := powers.getD (radixDigits - places % radixDigits) 0 with hpw
  set rem := v % p with hrem
  set tail := tailNonzero x (decIndex + places / radixDigits) with htail
  cases mode
  case towards => simp [bumpSpec]
  case away =>
    by_cases h0 : 0 < rem
    · have : rem ≠ 0 := Nat.pos_iff_ne_zero.mp h0
      simp [bumpSpec, h0, this]
    · have h0' : rem = 0 := by omega
      by_cases ht : tail = true <;> simp [bumpSpec, h0', ht]
  case halfDown =>
    by_cases h : p / 2 < rem <;> simp [bumpSpec, h]
  case halfUp =>
    by_cases h : p / 2 < rem + 1
    · have h' : p / 2 ≤ rem := by omega
      simp [bumpSpec, h, h']
    · have h' : ¬ (p / 2 ≤ rem) := by omega
      simp [bumpSpec, h, h']

/-- The value 2.5 (limb 1 = 2, limb 2 = 500000000), for the C2
witness. -/
def twoPointFive : f24 :=
  ⟨⟨0, false⟩, ⟨2, false⟩, ⟨500000000, false⟩, ⟨0, false⟩, ⟨0, false⟩, ⟨0, false⟩⟩

/-- C2 witness: the rule applied to `round(2.5, 0, HalfUp)`. -/
theorem c2_round_mode_rule_witness :
    roundGo twoPointFive ((0 : Nat) : Int) RoundMode.halfUp =
      some (roundWrite twoPointFive (decIndex + 0 / radixDigits)
        ((twoPointFive.getN (decIndex + 0 / radixDigits)).val -
          (twoPointFive.getN (decIndex + 0 / radixDigits)).val %
            powers.getD (radixDigits - 0 % radixDigits) 0 +
          (if bumpSpec RoundMode.halfUp
              ((twoPointFive.getN (decIndex + 0 / radixDigits)).val %
                powers.getD (radixDigits - 0 % radixDigits) 0)
              (powers.getD (radixDigits - 0 % radixDigits) 0)
              (tailNonzero twoPointFive (decIndex + 0 / radixDigits)) = true
           then powers.getD (radixDigits - 0 % radixDigits) 0 else 0))) :=
  c2_round_mode_rule twoPointFive RoundMode.halfUp 0 (by decide) (by decide) (by decide)
    (by decide)

/-- C3 evaluation at the failing input: for the flag-free operands
x = 2e-27 (limb 4 = 2) and y = 2e-27 + 3e-36 (limbs 4,5 = 2,3), the
true quotient x/y is 0.9999999985…, so the truncating quotient is 0 and
the remainder should equal x (positive); the code instead returns
q = 999999998 and a *negative* nonzero remainder, so r's sign does not
match x's sign and q·y + r overshoots x by adding about 10^9·y. -/
theorem c3_divrem_failing_input :
    divRemGo ⟨⟨0, false⟩, ⟨0, false⟩, ⟨0, false⟩, ⟨0, false⟩, ⟨2, false⟩, ⟨0, false⟩⟩
             ⟨⟨0, false⟩, ⟨0, false⟩, ⟨0, false⟩, ⟨0, false⟩, ⟨2, false⟩, ⟨3, false⟩⟩
      = some (⟨⟨0, false⟩, ⟨999999998, false⟩, ⟨0, false⟩, ⟨0, false⟩, ⟨0, false⟩,
               ⟨0, false⟩⟩,
              ⟨⟨0, true⟩, ⟨0, false⟩, ⟨0, false⟩, ⟨1, false⟩, ⟨999999996, false⟩,
               ⟨999999994, false⟩⟩) ∧
    (⟨⟨0, true⟩, ⟨0, false⟩, ⟨0, false⟩, ⟨1, false⟩, ⟨999999996, false⟩,
      ⟨999999994, false⟩⟩ : f24).isNeg = true ∧
    (⟨⟨0, true⟩, ⟨0, false⟩, ⟨0, false⟩, ⟨1, false⟩, ⟨999999996, false⟩,
      ⟨999999994, false⟩⟩ : f24).isZero = false := by
  refine ⟨by decide, by decide, by decide⟩

/-- C4 evaluation at the failing inputs: `mul(z, -5, 0)` produces an
exact zero (all limbs zero, underflow clear) whose negative flag is
set, and parsing the text "-0" produces the same negative exact zero —
both contradict "an exact zero is never negative". -/
theorem c4_negative_zero_failing_input :
    mul (f24Int (-5)) (f24Int 0) = some (f24.zero.setNeg true) ∧
    f24OfString "-0" = .ok (f24.zero.setNeg true) ∧
    (f24.zero.setNeg true).isZero = true ∧
    (f24.zero.setNeg true).isUnderflow = false ∧
    (f24.zero.setNeg true).isNeg = true := by
  refine ⟨by decide, by decide, by decide, by decide, by decide⟩

/-- C6 evaluation at the failing input: a pair of flag-free, in-range,
nonzero operands on which Go's `div` panics — the quotient-digit
estimate feeds `bits.Div64` a high word at least as large as the
divisor (quotient overflow), which panics; the model returns `none`
there.  So `div` does *not* return normally for every pair of inputs. -/
theorem c6_div_panic_failing_input :
    divGo ⟨⟨224209651, false⟩, ⟨3, false⟩, ⟨999999998, false⟩, ⟨12, false⟩,
           ⟨0, false⟩, ⟨999999997, false⟩⟩
          ⟨⟨500000000, false⟩, ⟨499999997, false⟩, ⟨999999999, false⟩, ⟨3, false⟩,
           ⟨73, false⟩, ⟨500000000, false⟩⟩ = none ∧
    (⟨⟨224209651, false⟩, ⟨3, false⟩, ⟨999999998, false⟩, ⟨12, false⟩,
      ⟨0, false⟩, ⟨999999997, false⟩⟩ : f24).validLimbs ∧
    (⟨⟨500000000, false⟩, ⟨499999997, false⟩, ⟨999999999, false⟩, ⟨3, false⟩,
      ⟨73, false⟩, ⟨500000000, false⟩⟩ : f24).validLimbs ∧
    (⟨⟨500000000, false⟩, ⟨499999997, false⟩, ⟨999999999, false⟩, ⟨3, false⟩,
      ⟨73, false⟩, ⟨500000000, false⟩⟩ : f24).isZero = false := by
  refine ⟨by decide, by decide, by decide, by decide⟩

/-- C7 evaluation at the failing input: multiplying the flag-free,
in-range values x = 2e-18 + 1e-36 and y = 999999999000000000.000000000999999999
yields a result whose limb 4 magnitude is exactly 10^9 — not strictly
below 10^9 — while the overflow flag is clear, violating the claimed
limb invariant (a carry increment pushes an accumulator slot to the
radix without renormalizing). -/
theorem c7_mul_limb_invariant_failing_input :
    mul ⟨⟨0, false⟩, ⟨0, false⟩, ⟨0, false⟩, ⟨2, false⟩, ⟨0, false⟩, ⟨1, false⟩⟩
        ⟨⟨999999999, false⟩, ⟨999999999, false⟩, ⟨0, false⟩, ⟨0, false⟩,
         ⟨999999999, false⟩, ⟨0, false⟩⟩
      = some ⟨⟨0, false⟩, ⟨1, false⟩, ⟨999999999, false⟩, ⟨999999998, true⟩,
              ⟨1000000000, false⟩, ⟨0, false⟩⟩ ∧
    (⟨⟨0, false⟩, ⟨0, false⟩, ⟨0, false⟩, ⟨2, false⟩, ⟨0, false⟩,
      ⟨1, false⟩⟩ : f24).validLimbs ∧
    (⟨⟨999999999, false⟩, ⟨999999999, false⟩, ⟨0, false⟩, ⟨0, false⟩,
      ⟨999999999, false⟩, ⟨0, false⟩⟩ : f24).validLimbs ∧
    ¬ (1000000000 : Nat) < radix ∧
    (⟨⟨0, false⟩, ⟨1, false⟩, ⟨999999999, false⟩, ⟨999999998, true⟩,
      ⟨1000000000, false⟩, ⟨0, false⟩⟩ : f24).isOverflow = false := by
  refine ⟨by decide, by decide, by decide, by decide, by decide⟩

/-- C8: `parse("1e18")` yields the canonical overflow value (overflow
flag set, all six limbs 999999999); `parse("1e-37")` yields zero with
only the underflow flag; `parse("999999999999999999")` yields that
exact value with no flags. -/
theorem c8_parse_thresholds :
    f24OfString "1e18" = .ok (overflowF24 false) ∧
    (overflowF24 false).isOverflow = true ∧
    (overflowF24 false).v0.val = maxDigit ∧ (overflowF24 false).v1.val = maxDigit ∧
    (overflowF24 false).v2.val = maxDigit ∧ (overflowF24 false).v3.val = maxDigit ∧
    (overflowF24 false).v4.val = maxDigit ∧ (overflowF24 false).v5.val = maxDigit ∧
    f24OfString "1e-37" = .ok (f24.zero.setUnderflow true) ∧
    f24OfString "999999999999999999" =
      .ok ⟨⟨999999999, false⟩, ⟨999999999, false⟩, ⟨0, false⟩, ⟨0, false⟩,
           ⟨0, false⟩, ⟨0, false⟩⟩ := by
  refine ⟨by decide, by decide, by decide, by decide, by decide, by decide,
          by decide, by decide, by decide, by decide⟩

/-- C5: in `add(z, x, y)` with non-NaN operands, if either operand is
overflow-flagged the result is the canonical overflow value (all six
limbs `10^9 - 1`, overflow flag set), and its sign is the common sign
when the operand signs agree, else negative exactly when `x` is
negative or `y` is overflowed. -/
theorem c5_add_overflow_rule (x y : f24) (hx : x.isNaN = false) (hy : y.isNaN = false)
    (hov : x.isOverflow = true ∨ y.isOverflow = true) :
    ((add x y).v0.val = maxDigit ∧ (add x y).v1.val = maxDigit ∧
     (add x y).v2.val = maxDigit ∧ (add x y).v3.val = maxDigit ∧
     (add x y).v4.val = maxDigit ∧ (add x y).v5.val = maxDigit) ∧
    (add x y).isOverflow = true ∧
    (add x y).isNeg = (if x.isNeg = y.isNeg then x.isNeg else (x.isNeg || y.isOverflow)) := by
  have hov' : (x.isOverflow || y.isOverflow) = true := by
    rcases hov with h | h <;> simp [h]
  have hnan : (x.isNaN || y.isNaN) = false := by simp [hx, hy]
  by_cases hs : x.isNeg = y.isNeg
  · have hbeq : (x.isNeg == y.isNeg) = true := by simp [hs]
    have hrw : add x y =
        arithOverflow ((if (x.isUnderflow || y.isUnderflow) = true then
          f24.zero.setUnderflow true else f24.zero).setNeg x.isNeg) := by
      simp [add, hnan, hbeq, hov']
    rw [hrw]
    exact ⟨arithOverflow_limbs _, by simp, by simp [hs]⟩
  · have hbeq : (x.isNeg == y.isNeg) = false := by simp [hs]
    have hrw : add x y =
        arithOverflow ((if (x.isUnderflow || y.isUnderflow) = true then
          f24.zero.setUnderflow true else f24.zero).setNeg (x.isNeg || y.isOverflow)) := by
      simp [add, hnan, hbeq, hov']
    rw [hrw]
    exact ⟨arithOverflow_limbs _, by simp, by simp [hs]⟩

/-- C5 witness: the rule applied to the overflowed positive maximum
plus one. -/
theorem c5_add_overflow_rule_witness :
    ((add (overflowF24 false) (f24Int 1)).v0.val = maxDigit ∧
     (add (overflowF24 false) (f24Int 1)).v1.val = maxDigit ∧
     (add (overflowF24 false) (f24Int 1)).v2.val = maxDigit ∧
     (add (overflowF24 false) (f24Int 1)).v3.val = maxDigit ∧
     (add (overflowF24 false) (f24Int 1)).v4.val = maxDigit ∧
     (add (overflowF24 false) (f24Int 1)).v5.val = maxDigit) ∧
    (add (overflowF24 false) (f24Int 1)).isOverflow = true ∧
    (add (overflowF24 false) (f24Int 1)).isNeg =
      (if (overflowF24 false).isNeg = (f24Int 1).isNeg then (overflowF24 false).isNeg
       else ((overflowF24 false).isNeg || (f24Int 1).isOverflow)) :=
  c5_add_overflow_rule (overflowF24 false) (f24Int 1) (by decide) (by decide) (Or.inl (by decide))

/-- C9: whenever the prefix scan meets a second sign character — any of
the four combinations of `+` and `-` — it fails, and the error is
classified by the second character: a second-position `+` reports
multiple plus signs and a second-position `-` reports multiple minus
signs (so "+-…" reports minus and "-+…" reports plus). -/
theorem c9_second_sign_error (c1 c2 : Char) (rest : List Char)
    (h1 : c1 = '+' ∨ c1 = '-') (h2 : c2 = '+' ∨ c2 = '-') :
    parseLead digits.empty (c1 :: c2 :: rest) =
      .error (if c2 = '-' then ParseError.multipleMinusSigns
              else ParseError.multiplePlusSigns) := by
  have hne : (c1 :: c2 :: rest) ≠ ['N', 'a', 'N'] := by
    rcases h1 with h | h <;> subst h <;> simp
  rw [parseLead, if_neg hne]
  rcases h1 with h | h <;> rcases h2 with h' | h' <;> subst h <;> subst h' <;>
    simp [parseLeadLoop, digits.empty]

/-- C9 witness: the rule applied to "+-1". -/
theorem c9_second_sign_error_witness :
    parseLead digits.empty ('+' :: '-' :: ['1']) = .error ParseError.multipleMinusSigns := by
  simpa using c9_second_sign_error '+' '-' ['1'] (Or.inl rfl) (Or.inr rfl)

/-- C10 counterexample: parsing the bare sign "-" succeeds and yields a
NaN-flagged value whose negative flag is *set* (the prefix scan records
the sign, the empty remainder turns into NaN, and `digits.F24` copies
the sign onto the NaN), contradicting "negative, overflow, and
underflow flags all clear".  It still renders as "NaN". -/
theorem c10_negative_nan_counterexample :
    f24OfString "-" = .ok ((f24.zero.setNeg true).setNaN true) ∧
    ((f24.zero.setNeg true).setNaN true).isNaN = true ∧
    ((f24.zero.setNeg true).setNaN true).isNeg = true ∧
    numericString ((f24.zero.setNeg true).setNaN true) = "NaN" := by
  refine ⟨by decide, by decide, by decide, by decide⟩

/-- C10 (amended): every NaN produced by the arithmetic operations — add, sub,
negate, abs, mul, div, divRem (both outputs), round and quanta — has its
negative, overflow and underflow flags all clear; the integer constructor
never produces a NaN; every NaN the float constructor produces is flag-pure
(a float NaN input sets only the NaN flag, and a finite value's `strconv`
rendering always contains a digit, so its re-parse never yields NaN); a NaN
obtained by parsing a string has overflow and underflow clear but may carry
the negative flag (a bare sign such as "-" parses to a negative NaN); and
every NaN, flag-pure or not, renders as exactly "NaN" with no prefix
symbols. -/
theorem c10_nan_flag_purity :
    (∀ x y : f24, (add x y).isNaN = true → flagPure (add x y)) ∧
    (∀ x y : f24, (sub x y).isNaN = true → flagPure (sub x y)) ∧
    (∀ x : f24, (negate x).isNaN = true → flagPure (negate x)) ∧
    (∀ x : f24, (absF24 x).isNaN = true → flagPure (absF24 x)) ∧
    (∀ x y z : f24, mul x y = some z → z.isNaN = true → flagPure z) ∧
    (∀ x y z : f24, divGo x y = some z → z.isNaN = true → flagPure z) ∧
    (∀ (x : f24) (p : Int) (m : RoundMode) (z : f24),
        roundGo x p m = some z → z.isNaN = true → flagPure z) ∧
    (∀ x y q r : f24, divRemGo x y = some (q, r) →
        (q.isNaN = true → flagPure q) ∧ (r.isNaN = true → flagPure r)) ∧
    (∀ (x y : f24) (m : RoundMode) (z : f24),
        quanta x y m = some z → z.isNaN = true → flagPure z) ∧
    (∀ v : Int, (f24Int v).isNaN = false) ∧
    (∀ v : GoFloat, goFloatFormatted v = true →
        (f24Float64 v).isNaN = true → flagPure (f24Float64 v)) ∧
    (∀ (s : String) (z : f24), f24OfString s = Except.ok z → z.isNaN = true →
        z.isOverflow = false ∧ z.isUnderflow = false) ∧
    (∀ z : f24, z.isNaN = true → numericString z = "NaN") :=
  ⟨flagPure_add, flagPure_sub, flagPure_negate, flagPure_absF24, flagPure_mul,
   flagPure_divGo, flagPure_roundGo, flagPure_divRemGo, flagPure_quanta,
   isNaN_f24Int, flagPure_f24Float64, parse_nan_flags, numericString_nan⟩

/-- C10 witness: the amended rule applied to the NaN `0.setNaN(true)` and to
the float constructor at a NaN float input. -/
theorem c10_nan_flag_purity_witness :
    flagPure (add (f24.zero.setNaN true) f24.zero) ∧
    flagPure (f24Float64 GoFloat.nan) ∧
    numericString (f24.zero.setNaN true) = "NaN" :=
  ⟨c10_nan_flag_purity.1 (f24.zero.setNaN true) f24.zero (by decide),
   c10_nan_flag_purity.2.2.2.2.2.2.2.2.2.2.1 GoFloat.nan (by decide) (by decide),
   c10_nan_flag_purity.2.2.2.2.2.2.2.2.2.2.2.2 (f24.zero.setNaN true) (by decide)⟩

end NumericDef
